import Mathlib

/-!
Verification development for the Sofascore darts data fetcher (src/app.py).

The embedding models the JSON values the program manipulates, the Python
dictionary-access primitives the source relies on (.get with default,
membership, truthiness, iteration, len), the row-extraction and
statistics-parsing functions, the retry controller _make_request as a
function from per-attempt outcomes to a result and an effect trace,
and the per-date batch loop of main.

Conventions: JSON numbers are modeled as integers (every claim uses
integer payload values); Python exceptions are modeled with an explicit
error type since the source lets several of them escape; the strftime
rendering of a timestamp is modeled at UTC offset zero (the source uses
the timezone of the host, which is environment data, not program logic).
-/

set_option autoImplicit false

namespace Darts

/-- JSON values as Python sees them after response.json(). -/
inductive JVal where
  | null
  | bool (b : Bool)
  | num (n : Int)
  | str (s : String)
  | arr (xs : List JVal)
  | obj (fs : List (String × JVal))

/-- Modeled Python exceptions that can escape the source functions. -/
inductive PyErr where
  | attributeError
  | typeError
  | valueError
deriving Repr, DecidableEq

mutual

/-- Python equality test restricted to the JSON fragment (used for
dictionary keys and the string comparison with "ALL"). -/
def jBeq : JVal → JVal → Bool
  | .null, .null => true
  | .bool a, .bool b => a == b
  | .num a, .num b => a == b
  | .str a, .str b => a == b
  | .arr a, .arr b => jBeqList a b
  | .obj a, .obj b => jBeqFields a b
  | _, _ => false

def jBeqList : List JVal → List JVal → Bool
  | [], [] => true
  | x :: xs, y :: ys => jBeq x y && jBeqList xs ys
  | _, _ => false

def jBeqFields : List (String × JVal) → List (String × JVal) → Bool
  | [], [] => true
  | (k1, v1) :: xs, (k2, v2) :: ys => k1 == k2 && jBeq v1 v2 && jBeqFields xs ys
  | _, _ => false

end

/-- Python truthiness of a JSON value. -/
def truthy : JVal → Bool
  | .null => false
  | .bool b => b
  | .num n => n != 0
  | .str s => s != ""
  | .arr xs => !xs.isEmpty
  | .obj fs => !fs.isEmpty

/-- Truthiness of a value that may be Python None (modeled as Option). -/
def truthyOpt : Option JVal → Bool
  | none => false
  | some v => truthy v

/-- Python x.get(key, default): defined on dictionaries, raises
AttributeError on every other receiver. -/
def jGet : JVal → String → JVal → Except PyErr JVal
  | .obj fs, k, dflt => .ok ((List.lookup k fs).getD dflt)
  | _, _, _ => .error .attributeError

/-- Character list n matches at the start of h. -/
def startsWithChars (n : List Char) : List Char → Bool
  | h =>
    match n, h with
    | [], _ => true
    | _ :: _, [] => false
    | c :: cs, d :: ds => c == d && startsWithChars cs ds

/-- Character list n occurs contiguously inside h. -/
def hasSubChars (n : List Char) : List Char → Bool
  | [] => n.isEmpty
  | d :: ds => startsWithChars n (d :: ds) || hasSubChars n ds

/-- Python membership test needle in container, for the receivers the
source can reach: dictionaries test keys, lists test elements, strings
test substrings; other receivers raise TypeError, as does an unhashable
needle against a dictionary. -/
def pyContains : JVal → JVal → Except PyErr Bool
  | .obj fs, .str s => .ok (fs.any (fun p => p.1 == s))
  | .obj _, .arr _ => .error .typeError
  | .obj _, .obj _ => .error .typeError
  | .obj _, _ => .ok false
  | .arr xs, n => .ok (xs.any (jBeq n))
  | .str s, .str n => .ok (hasSubChars n.data s.data)
  | .str _, _ => .error .typeError
  | _, _ => .error .typeError

/-- Python iteration over a value: lists yield elements, strings yield
one-character strings, dictionaries yield keys; other values raise. -/
def pyIter : JVal → Except PyErr (List JVal)
  | .arr xs => .ok xs
  | .str s => .ok (s.data.map (fun c => .str c.toString))
  | .obj fs => .ok (fs.map (fun p => .str p.1))
  | _ => .error .typeError

/-- Python len() on the values the source can reach. -/
def pyLen : JVal → Except PyErr Nat
  | .arr xs => .ok xs.length
  | .str s => .ok s.length
  | .obj fs => .ok fs.length
  | _ => .error .typeError

/-- Argument check of datetime.fromtimestamp: numbers are accepted
(booleans are integers in Python), everything else raises TypeError. -/
def toTimestampInt : JVal → Except PyErr Int
  | .num n => .ok n
  | .bool b => .ok (if b then 1 else 0)
  | _ => .error .typeError

/-- Error propagation of Python exceptions: run the first computation,
feed its value to the rest, stop at the first raised exception. Written
as an explicit match so that terms reduce without typeclass machinery. -/
def eb {α β : Type} : Except PyErr α → (α → Except PyErr β) → Except PyErr β
  | .error e, _ => .error e
  | .ok a, f => f a

@[simp] theorem eb_ok {α β : Type} (a : α) (f : α → Except PyErr β) :
    eb (.ok a) f = f a := rfl

@[simp] theorem eb_error {α β : Type} (e : PyErr) (f : α → Except PyErr β) :
    eb (.error e) f = .error e := rfl

/-- Two-digit zero padding used by the timestamp rendering. -/
def pad2 (n : Nat) : String :=
  if n < 10 then "0" ++ toString n else toString n

/-- Civil date from a day count relative to 1970-01-01 (standard
era-based calendar algorithm). -/
def civilFromDays (z0 : Int) : Int × Nat × Nat :=
  let z := z0 + 719468
  let era := Int.fdiv z 146097
  let doe := (z - era * 146097).toNat
  let yoe := (doe - doe / 1460 + doe / 36524 - doe / 146096) / 365
  let doy := doe - (365 * yoe + yoe / 4 - yoe / 100)
  let mp := (5 * doy + 2) / 153
  let d := doy - (153 * mp + 2) / 5 + 1
  let m := if mp < 10 then mp + 3 else mp - 9
  ((yoe : Int) + era * 400 + (if m ≤ 2 then 1 else 0), m, d)

/-- Rendering of datetime.fromtimestamp(ts).strftime of the source,
at UTC offset zero. -/
def formatTimestamp (ts : Int) : String :=
  let days := Int.fdiv ts 86400
  let sod := (ts - days * 86400).toNat
  let c := civilFromDays days
  toString c.1 ++ "-" ++ pad2 c.2.1 ++ "-" ++ pad2 c.2.2 ++ " " ++
    pad2 (sod / 3600) ++ ":" ++ pad2 (sod % 3600 / 60) ++ ":" ++ pad2 (sod % 60)

/-- An Event Row: the dictionary literal built by extract_event_ids,
kept as an association list with the keys of the source in order. -/
abbrev Row := List (String × JVal)

/-- Lookup of a field of an Event Row, as in event[key] for keys the
construction always provides. -/
def rowGet (r : Row) (k : String) : JVal :=
  (List.lookup k r).getD .null

/-- One iteration of the loop body of extract_event_ids: the nested
container reads, then the dictionary literal in source order. -/
def rowOfEvent (event : JVal) : Except PyErr Row :=
  eb (jGet event "homeTeam" (.obj [])) fun home_team =>
  eb (jGet event "awayTeam" (.obj [])) fun away_team =>
  eb (jGet event "tournament" (.obj [])) fun tournament =>
  eb (jGet event "status" (.obj [])) fun status =>
  eb (jGet event "roundInfo" (.obj [])) fun round_info =>
  eb (jGet event "homeScore" (.obj [])) fun home_score =>
  eb (jGet event "awayScore" (.obj [])) fun away_score =>
  eb (jGet event "id" .null) fun idv =>
  eb (jGet event "slug" .null) fun slug =>
  eb (jGet event "startTimestamp" .null) fun tsv =>
  eb (jGet event "startTimestamp" (.num 0)) fun tsArg =>
  eb (toTimestampInt tsArg) fun ts =>
  eb (jGet home_team "name" (.str "Unknown")) fun htName =>
  eb (jGet away_team "name" (.str "Unknown")) fun atName =>
  eb (jGet tournament "name" (.str "Unknown")) fun tName =>
  eb (jGet round_info "name" (.str "")) fun rName =>
  eb (jGet status "description" (.str "Unknown")) fun sDesc =>
  eb (jGet home_score "display" (.num 0)) fun hScore =>
  eb (jGet away_score "display" (.num 0)) fun aScore =>
  eb (jGet event "bestOfSets" .null) fun bos =>
  eb (jGet event "bestOfLegs" .null) fun bol =>
  eb (jGet event "winnerCode" (.num 0)) fun wc =>
  .ok [("id", idv), ("slug", slug), ("startTimestamp", tsv),
       ("startTime", .str (formatTimestamp ts)),
       ("homeTeam", htName), ("awayTeam", atName), ("tournament", tName),
       ("round", rName), ("status", sDesc),
       ("homeScore", hScore), ("awayScore", aScore),
       ("bestOfSets", bos), ("bestOfLegs", bol), ("winnerCode", wc)]

/-- The loop of extract_event_ids over the events list, appending one
Row per entry. -/
def mapRows : List JVal → Except PyErr (List Row)
  | [] => .ok []
  | e :: es =>
    eb (rowOfEvent e) fun r =>
    eb (mapRows es) fun rs =>
    .ok (r :: rs)

/-- extract_event_ids of the source: None or a payload without an
events key yields the empty list, otherwise one Row per entry. -/
def extract_event_ids (scheduled_data : Option JVal) : Except PyErr (List Row) :=
  match scheduled_data with
  | none => .ok []
  | some sd =>
    if truthy sd then
      eb (pyContains sd (.str "events")) fun hasEv =>
      if hasEv then
        eb (jGet sd "events" (.arr [])) fun evsVal =>
        eb (pyIter evsVal) fun items =>
        mapRows items
      else .ok []
    else .ok []

/-- The value dictionary stored per statistic key by parse_statistics. -/
structure StatEntry where
  name : JVal
  home : JVal
  away : JVal
  homeValue : JVal
  awayValue : JVal

/-- The stats dictionary built by parse_statistics. -/
abbrev StatsDict := List (JVal × StatEntry)

/-- Hashability of a JSON value as a Python dictionary key. -/
def hashable : JVal → Bool
  | .arr _ => false
  | .obj _ => false
  | _ => true

/-- Python dictionary assignment d[k] = v on an association list:
replace in place on an existing key, append otherwise. -/
def insertRep : List (JVal × StatEntry) → JVal → StatEntry → List (JVal × StatEntry)
  | [], k, v => [(k, v)]
  | (k0, v0) :: t, k, v =>
    if jBeq k0 k then (k0, v) :: t else (k0, v0) :: insertRep t k v

/-- Dictionary assignment with the hashability check Python performs. -/
def dinsert (m : StatsDict) (k : JVal) (v : StatEntry) : Except PyErr StatsDict :=
  if hashable k then .ok (insertRep m k v) else .error .typeError

/-- Lookup in the stats dictionary. -/
def dLookup (m : StatsDict) (k : JVal) : Option StatEntry :=
  match m with
  | [] => none
  | (k0, v0) :: t => if jBeq k0 k then some v0 else dLookup t k

/-- Inner loop of parse_statistics over the statisticsItems of one group. -/
def parseItems : List JVal → StatsDict → Except PyErr StatsDict
  | [], acc => .ok acc
  | item :: items, acc =>
    eb (jGet item "key" .null) fun k =>
    eb (jGet item "name" .null) fun nm =>
    eb (jGet item "home" .null) fun ho =>
    eb (jGet item "away" .null) fun aw =>
    eb (jGet item "homeValue" .null) fun hv =>
    eb (jGet item "awayValue" .null) fun av =>
    eb (dinsert acc k ⟨nm, ho, aw, hv, av⟩) fun acc2 =>
    parseItems items acc2

/-- Middle loop of parse_statistics over the groups of one period. -/
def parseGroups : List JVal → StatsDict → Except PyErr StatsDict
  | [], acc => .ok acc
  | group :: groups, acc =>
    eb (jGet group "statisticsItems" (.arr [])) fun its =>
    eb (pyIter its) fun items =>
    eb (parseItems items acc) fun acc2 =>
    parseGroups groups acc2

/-- Outer loop of parse_statistics over the period entries: only the
entries whose period equals "ALL" contribute. -/
def parsePeriods : List JVal → StatsDict → Except PyErr StatsDict
  | [], acc => .ok acc
  | period_data :: rest, acc =>
    eb (jGet period_data "period" .null) fun p =>
    if jBeq p (.str "ALL") then
      eb (jGet period_data "groups" (.arr [])) fun gs =>
      eb (pyIter gs) fun groups =>
      eb (parseGroups groups acc) fun acc2 =>
      parsePeriods rest acc2
    else parsePeriods rest acc

/-- parse_statistics of the source: None for a falsy payload or one
without a statistics key, otherwise the dictionary accumulated over
every period entry whose period is "ALL". -/
def parse_statistics (stats_data : JVal) : Except PyErr (Option StatsDict) :=
  if truthy stats_data then
    eb (pyContains stats_data (.str "statistics")) fun hs =>
    if hs then
      eb (jGet stats_data "statistics" (.arr [])) fun stats =>
      eb (pyIter stats) fun periods =>
      eb (parsePeriods periods []) fun d =>
      .ok (some d)
    else .ok none
  else .ok none

/-- Outcome of one HTTP attempt inside _make_request, as the controller
classifies it: a 200 with parseable JSON, a 200 whose body fails JSON
decoding, a 429 with an integer or absent retry-after header, a 429
whose header does not parse as an integer (the int() call raises and the
generic handler treats it as a plain failure), a 403, any other status
code, or a transport-level request error. -/
inductive Outcome where
  | ok200 (body : JVal)
  | parseFail
  | code429 (retryAfter : Option Int)
  | code429bad
  | code403
  | codeOther (c : Nat)
  | netFail

/-- True exactly for the outcome that makes the controller return. -/
def isOk : Outcome → Bool
  | .ok200 _ => true
  | _ => false

/-- Configuration of the controller: the politeness base delay of the
fetcher (2.0 in the source) and max_retries (default 3). -/
structure RetryConfig where
  delay : ℚ
  maxRetries : Nat

/-- The configuration the application instantiates. -/
def cfgMain : RetryConfig := ⟨2, 3⟩

/-- Observable side effects of one run of _make_request. Sleeps carry
the attempt index and duration; jitter values are inputs to the model
since the source draws them from random.uniform. -/
inductive Eff where
  | sleep (attempt : Nat) (t : ℚ)
  | request (attempt : Nat)
  | sleepRetryAfter (t : Int)
  | refresh
deriving Repr, DecidableEq

/-- Duration slept at the top of the loop body before attempt a: the
exponential backoff for a positive attempt index, the politeness delay
before attempt 0. j0 and j are the jitter draws, uniform(0.5, 1.5) and
uniform(1, 3) in the source. -/
def sleepFor (cfg : RetryConfig) (j0 : ℚ) (j : Nat → ℚ) (a : Nat) : ℚ :=
  if 0 < a then cfg.delay * 2 ^ a + j a else cfg.delay + j0

/-- The loop of _make_request, fuel counting the remaining iterations of
range(max_retries). A 429 sleeps the retry-after value (default 60) and
moves to the next attempt; a 403 refreshes the client and session unless
the current attempt is the last; a 200 returns its body at once; every
other outcome is a caught exception that falls through to the next
attempt (returning None when the loop is exhausted). -/
def mkReqGo (cfg : RetryConfig) (out : Nat → Outcome) (j0 : ℚ) (j : Nat → ℚ) :
    Nat → Nat → Option JVal × List Eff
  | 0, _ => (none, [])
  | fuel + 1, a =>
    let pre := [Eff.sleep a (sleepFor cfg j0 j a), Eff.request a]
    match out a with
    | .ok200 b => (some b, pre)
    | .code429 ra =>
      let r := mkReqGo cfg out j0 j fuel (a + 1)
      (r.1, pre ++ Eff.sleepRetryAfter (ra.getD 60) :: r.2)
    | .code403 =>
      let r := mkReqGo cfg out j0 j fuel (a + 1)
      (r.1, pre ++ (if 0 < fuel then [Eff.refresh] else []) ++ r.2)
    | _ =>
      let r := mkReqGo cfg out j0 j fuel (a + 1)
      (r.1, pre ++ r.2)

/-- Model of _make_request of the source as a function of the per-attempt
outcomes and the jitter draws: the returned payload (None on
exhaustion) and the trace of sleeps, requests and session refreshes. -/
def mkReq (cfg : RetryConfig) (out : Nat → Outcome) (j0 : ℚ) (j : Nat → ℚ) :
    Option JVal × List Eff :=
  mkReqGo cfg out j0 j cfg.maxRetries 0

/-- Number of HTTP requests recorded in a trace. -/
def countRequests (t : List Eff) : Nat :=
  t.countP (fun e => match e with | .request _ => true | _ => false)

/-- Messages fetch_scheduled_events reports for one date: the success
note with the event count, or the warning that the API returned None or
empty. -/
inductive Msg where
  | fetchedOk (n : Nat)
  | fetchedNone
deriving Repr, DecidableEq

/-- fetch_scheduled_events after _make_request returned res: passes res
through and reports the message the source displays. -/
def fetch_scheduled_events (res : Option JVal) : Except PyErr (Option JVal × List Msg) :=
  if truthyOpt res then
    match res with
    | some r =>
      eb (jGet r "events" (.arr [])) fun ev =>
      eb (pyLen ev) fun n =>
      .ok (some r, [Msg.fetchedOk n])
    | none => .ok (none, [Msg.fetchedNone])
  else .ok (res, [Msg.fetchedNone])

/-- One date of the fetch loop of main with statistics disabled: the
schedule fetch result is turned into rows and messages. -/
def processDate (res : Option JVal) : Except PyErr (List Row × List Msg) :=
  eb (fetch_scheduled_events res) fun sm =>
  eb (extract_event_ids sm.1) fun evs =>
  .ok (evs, sm.2)

/-- The sequential per-date loop of main over a list of dates, with the
transport result of each date given by results; each date contributes
its rows and messages, in iteration order. -/
def batchFetch (results : Nat → Option JVal) :
    List Nat → Except PyErr (List (Nat × List Row × List Msg))
  | [] => .ok []
  | d :: ds =>
    eb (processDate (results d)) fun rm =>
    eb (batchFetch results ds) fun rest =>
    .ok ((d, rm.1, rm.2) :: rest)

/-- pd.date_range(start, end): the inclusive ascending range of days,
dates modeled as day numbers. -/
def dateRange (s e : Nat) : List Nat :=
  (List.range (e + 1 - s)).map (fun i => s + i)

/-- The date tags of the aggregated output rows in output order: each
per-date result contributes one tag per row. -/
def tagDates (out : List (Nat × List Row × List Msg)) : List Nat :=
  out.flatMap (fun en => en.2.1.map (fun _ => en.1))

/-- Dictionary assignment for all_stats (event ids are hashable in every
payload the source builds rows from; the ids the claims use are
numbers). -/
def insertStats (m : List (JVal × Option StatsDict)) (k : JVal) (v : Option StatsDict) :
    List (JVal × Option StatsDict) :=
  match m with
  | [] => [(k, v)]
  | (k0, v0) :: t => if jBeq k0 k then (k0, v) :: t else (k0, v0) :: insertStats t k v

/-- The statistics loop of main over the events of one date: for each
event, if the statistics fetch returned a truthy payload, parse it and
assign it into the accumulated stats dictionary under the event id. -/
def statsLoop (statsRes : JVal → Option JVal) (acc : List (JVal × Option StatsDict)) :
    List Row → Except PyErr (List (JVal × Option StatsDict))
  | [] => .ok acc
  | ev :: evs =>
    let eid := rowGet ev "id"
    if truthyOpt (statsRes eid) then
      match statsRes eid with
      | some sd =>
        eb (parse_statistics sd) fun ps =>
        statsLoop statsRes (insertStats acc eid ps) evs
      | none => statsLoop statsRes acc evs
    else statsLoop statsRes acc evs

/-- Key membership in all_stats. -/
def hasStatsKey (m : List (JVal × Option StatsDict)) (k : JVal) : Bool :=
  m.any (fun p => jBeq p.1 k)

/-- One date of the fetch loop of main with statistics enabled: rows
are extracted first, then the statistics loop runs over them. -/
def processDateStats (res : Option JVal) (statsRes : JVal → Option JVal)
    (accStats : List (JVal × Option StatsDict)) :
    Except PyErr (List Row × List Msg × List (JVal × Option StatsDict)) :=
  eb (fetch_scheduled_events res) fun sm =>
  eb (extract_event_ids sm.1) fun evs =>
  eb (statsLoop statsRes accStats evs) fun stats =>
  .ok (evs, sm.2, stats)

/-! Lemmas about the retry controller. -/

theorem mkReqGo_zero (cfg : RetryConfig) (out : Nat → Outcome) (j0 : ℚ) (j : Nat → ℚ)
    (a : Nat) : mkReqGo cfg out j0 j 0 a = (none, []) := rfl

/-- One non-returning iteration of the loop: the value is the value of
the rest of the loop, and the trace starts with the sleep and the
request of this attempt, a request-free segment, then the rest. -/
theorem mkReqGo_step (cfg : RetryConfig) (out : Nat → Outcome) (j0 : ℚ) (j : Nat → ℚ)
    (fuel a : Nat) (h : isOk (out a) = false) :
    ∃ seg, (∀ i, Eff.request i ∉ seg) ∧
      mkReqGo cfg out j0 j (fuel + 1) a =
        ((mkReqGo cfg out j0 j fuel (a + 1)).1,
          Eff.sleep a (sleepFor cfg j0 j a) :: Eff.request a ::
            (seg ++ (mkReqGo cfg out j0 j fuel (a + 1)).2)) := by
  cases hout : out a with
  | ok200 b => rw [hout] at h; simp [isOk] at h
  | code429 ra =>
    exact ⟨[Eff.sleepRetryAfter (ra.getD 60)], by simp, by simp [mkReqGo, hout]⟩
  | code403 =>
    refine ⟨if 0 < fuel then [Eff.refresh] else [], ?_, by simp [mkReqGo, hout]⟩
    intro i; split <;> simp
  | parseFail => exact ⟨[], by simp, by simp [mkReqGo, hout]⟩
  | code429bad => exact ⟨[], by simp, by simp [mkReqGo, hout]⟩
  | codeOther c => exact ⟨[], by simp, by simp [mkReqGo, hout]⟩
  | netFail => exact ⟨[], by simp, by simp [mkReqGo, hout]⟩

/-- Skipping k non-returning attempts: the loop value equals the value
of the loop started at attempt a + k, and the trace up to that point
only holds requests of earlier attempts. -/
theorem mkReqGo_reach (cfg : RetryConfig) (out : Nat → Outcome) (j0 : ℚ) (j : Nat → ℚ) :
    ∀ (k fuel a : Nat), (∀ i, i < k → isOk (out (a + i)) = false) → k ≤ fuel →
    (mkReqGo cfg out j0 j fuel a).1 = (mkReqGo cfg out j0 j (fuel - k) (a + k)).1 ∧
    ∃ pre, (mkReqGo cfg out j0 j fuel a).2 =
        pre ++ (mkReqGo cfg out j0 j (fuel - k) (a + k)).2 ∧
      ∀ i, Eff.request i ∈ pre → i < a + k
  | 0, fuel, a, _, _ => by
    refine ⟨by simp, ⟨[], by simp, by simp⟩⟩
  | k + 1, fuel, a, hpre, hk => by
    obtain ⟨f, rfl⟩ : ∃ f, fuel = f + 1 := ⟨fuel - 1, by omega⟩
    obtain ⟨seg, hseg, hstep⟩ :=
      mkReqGo_step cfg out j0 j f a (hpre 0 (by omega))
    have hpre1 : ∀ i, i < k → isOk (out (a + 1 + i)) = false := by
      intro i hi
      have := hpre (i + 1) (by omega)
      rwa [show a + (i + 1) = a + 1 + i by omega] at this
    obtain ⟨hval, pre1, htr, hreq⟩ :=
      mkReqGo_reach cfg out j0 j k f (a + 1) hpre1 (by omega)
    have hf : f + 1 - (k + 1) = f - k := by omega
    have ha : a + (k + 1) = a + 1 + k := by omega
    rw [hstep, hf, ha]
    refine ⟨hval, Eff.sleep a (sleepFor cfg j0 j a) :: Eff.request a :: (seg ++ pre1), ?_, ?_⟩
    · simp [htr]
    · intro i hi
      simp only [List.mem_cons, List.mem_append] at hi
      rcases hi with h1 | h1 | h1 | h1
      · cases h1
      · cases h1; omega
      · exact absurd h1 (hseg i)
      · have := hreq i h1; omega

/-- The loop never issues more requests than it has fuel. -/
theorem countRequests_mkReqGo (cfg : RetryConfig) (out : Nat → Outcome) (j0 : ℚ)
    (j : Nat → ℚ) : ∀ fuel a, countRequests (mkReqGo cfg out j0 j fuel a).2 ≤ fuel
  | 0, a => by simp [mkReqGo, countRequests]
  | fuel + 1, a => by
    have ih := countRequests_mkReqGo cfg out j0 j fuel (a + 1)
    cases hout : out a
    case code403 =>
      simp_all [mkReqGo, countRequests, List.countP_cons, List.countP_append]
      split
      · simp [List.countP_cons]; omega
      · simp [List.countP_cons]; omega
    all_goals
      simp_all [mkReqGo, countRequests, List.countP_cons, List.countP_append]

/-- The trace of a nonempty loop starts with the sleep and the request
of its first attempt. -/
theorem mkReqGo_head (cfg : RetryConfig) (out : Nat → Outcome) (j0 : ℚ) (j : Nat → ℚ)
    (fuel a : Nat) :
    ∃ tail, (mkReqGo cfg out j0 j (fuel + 1) a).2 =
      Eff.sleep a (sleepFor cfg j0 j a) :: Eff.request a :: tail := by
  cases hout : out a
  case ok200 b => exact ⟨[], by simp [mkReqGo, hout]⟩
  case code429 ra =>
    exact ⟨Eff.sleepRetryAfter (ra.getD 60) :: (mkReqGo cfg out j0 j fuel (a + 1)).2,
      by simp [mkReqGo, hout]⟩
  case code403 =>
    exact ⟨(if 0 < fuel then [Eff.refresh] else []) ++ (mkReqGo cfg out j0 j fuel (a + 1)).2,
      by simp [mkReqGo, hout]⟩
  case parseFail => exact ⟨(mkReqGo cfg out j0 j fuel (a + 1)).2, by simp [mkReqGo, hout]⟩
  case code429bad => exact ⟨(mkReqGo cfg out j0 j fuel (a + 1)).2, by simp [mkReqGo, hout]⟩
  case codeOther c => exact ⟨(mkReqGo cfg out j0 j fuel (a + 1)).2, by simp [mkReqGo, hout]⟩
  case netFail => exact ⟨(mkReqGo cfg out j0 j fuel (a + 1)).2, by simp [mkReqGo, hout]⟩

/-- When every attempt fails, the loop value is None. -/
theorem mkReqGo_allfail (cfg : RetryConfig) (out : Nat → Outcome) (j0 : ℚ) (j : Nat → ℚ)
    (hall : ∀ a, isOk (out a) = false) :
    ∀ fuel a, (mkReqGo cfg out j0 j fuel a).1 = none
  | 0, a => rfl
  | fuel + 1, a => by
    obtain ⟨seg, _, hstep⟩ := mkReqGo_step cfg out j0 j fuel a (hall a)
    rw [hstep]
    exact mkReqGo_allfail cfg out j0 j hall fuel (a + 1)

/-- Outcomes the controller treats as plain failed attempts. -/
def transientOut : Outcome → Bool
  | .parseFail => true
  | .code429bad => true
  | .codeOther _ => true
  | .netFail => true
  | _ => false

/-- On a stream of plain failures the loop trace is exactly the
alternation of backoff sleeps and requests for the attempts it has fuel
for. -/
theorem mkReqGo_transient_trace (cfg : RetryConfig) (out : Nat → Outcome) (j0 : ℚ)
    (j : Nat → ℚ) (hall : ∀ a, transientOut (out a) = true) :
    ∀ fuel a, (mkReqGo cfg out j0 j fuel a).2 =
      (List.range' a fuel).flatMap
        (fun i => [Eff.sleep i (sleepFor cfg j0 j i), Eff.request i])
  | 0, a => rfl
  | fuel + 1, a => by
    have ih := mkReqGo_transient_trace cfg out j0 j hall fuel (a + 1)
    have ht := hall a
    cases hout : out a
    case ok200 b => rw [hout] at ht; simp [transientOut] at ht
    case code429 ra => rw [hout] at ht; simp [transientOut] at ht
    case code403 => rw [hout] at ht; simp [transientOut] at ht
    case parseFail => simp [mkReqGo, hout, ih, List.range'_succ]
    case code429bad => simp [mkReqGo, hout, ih, List.range'_succ]
    case codeOther c => simp [mkReqGo, hout, ih, List.range'_succ]
    case netFail => simp [mkReqGo, hout, ih, List.range'_succ]

/-- C2: with the source delay configuration (base delay at least 1, as
the shipped 2.0), the computed sleep durations are non-decreasing in
the attempt index for every admissible draw of the jitters; on a stream
of plain transient failures the trace is exactly those sleeps and
requests for attempts 0..m-1; and no run issues more than max_retries
requests. -/
theorem c2_backoff_monotone_bounded (d : ℚ) (m : Nat) (hd : 1 ≤ d) (j0 : ℚ) (j : Nat → ℚ)
    (hj0 : 1 / 2 ≤ j0 ∧ j0 ≤ 3 / 2) (hj : ∀ i, 1 ≤ j i ∧ j i ≤ 3) :
    (∀ k, sleepFor ⟨d, m⟩ j0 j k ≤ sleepFor ⟨d, m⟩ j0 j (k + 1)) ∧
    (∀ out : Nat → Outcome, (∀ a, transientOut (out a) = true) →
      (mkReq ⟨d, m⟩ out j0 j).2 =
        (List.range m).flatMap
          (fun i => [Eff.sleep i (sleepFor ⟨d, m⟩ j0 j i), Eff.request i])) ∧
    (∀ out : Nat → Outcome, countRequests (mkReq ⟨d, m⟩ out j0 j).2 ≤ m) := by
  refine ⟨?_, ?_, ?_⟩
  · intro k
    cases k with
    | zero =>
      have h1 := (hj (0 + 1)).1
      simp only [sleepFor, Nat.lt_irrefl, if_false, if_pos Nat.zero_lt_one]
      have h2 : (2 : ℚ) ^ (0 + 1) = 2 := by norm_num
      rw [h2]
      linarith [hj0.2]
    | succ n =>
      have h1 := (hj (n + 1)).2
      have h2 := (hj (n + 1 + 1)).1
      simp only [sleepFor, if_pos (Nat.succ_pos n), if_pos (Nat.succ_pos (n + 1))]
      have hp : (1 : ℚ) ≤ 2 ^ n := one_le_pow₀ (by norm_num)
      have hpow1 : (2 : ℚ) ^ (n + 1) = 2 ^ n * 2 := by ring
      have hpow2 : (2 : ℚ) ^ (n + 1 + 1) = 2 ^ n * 4 := by ring
      rw [hpow1, hpow2]
      nlinarith
  · intro out hall
    have := mkReqGo_transient_trace ⟨d, m⟩ out j0 j hall m 0
    rw [mkReq, this, List.range_eq_range']
  · intro out
    exact countRequests_mkReqGo ⟨d, m⟩ out j0 j m 0

/-- Witness for C2 at the shipped configuration (delay 2.0, 3 attempts)
and concrete in-range jitters. -/
theorem c2_backoff_monotone_bounded_witness :
    sleepFor cfgMain 1 (fun _ => 2) 0 ≤ sleepFor cfgMain 1 (fun _ => 2) 1 ∧
    countRequests (mkReq cfgMain (fun _ => Outcome.netFail) 1 (fun _ => 2)).2 ≤ 3 := by
  have h := c2_backoff_monotone_bounded 2 3 (by norm_num) 1 (fun _ => 2)
    ⟨by norm_num, by norm_num⟩ (fun i => ⟨by norm_num, by norm_num⟩)
  exact ⟨h.1 0, h.2.2 (fun _ => Outcome.netFail)⟩

/-- C3: whenever attempt k observes a 403 and a next attempt exists,
the trace shows the session refresh between the request of attempt k
and the request of attempt k + 1. -/
theorem c3_forbidden_refresh (cfg : RetryConfig) (out : Nat → Outcome) (j0 : ℚ)
    (j : Nat → ℚ) (k : Nat) (h403 : out k = .code403) (hnext : k + 1 < cfg.maxRetries)
    (hbefore : ∀ a, a < k → isOk (out a) = false) :
    ∃ told tail, (mkReq cfg out j0 j).2 =
      told ++ Eff.request k :: Eff.refresh ::
        Eff.sleep (k + 1) (sleepFor cfg j0 j (k + 1)) :: Eff.request (k + 1) :: tail := by
  obtain ⟨hval, pre, htr, hreq⟩ :=
    mkReqGo_reach cfg out j0 j k cfg.maxRetries 0
      (by intro i hi; simpa using hbefore i hi) (by omega)
  obtain ⟨g, hg⟩ : ∃ g, cfg.maxRetries - k = g + 1 + 1 := ⟨cfg.maxRetries - k - 2, by omega⟩
  obtain ⟨tail, htail⟩ := mkReqGo_head cfg out j0 j g (k + 1)
  refine ⟨pre ++ [Eff.sleep k (sleepFor cfg j0 j k)], tail, ?_⟩
  rw [mkReq, htr, hg]
  simp only [Nat.zero_add]
  rw [show (mkReqGo cfg out j0 j (g + 1 + 1) k).2 =
      Eff.sleep k (sleepFor cfg j0 j k) :: Eff.request k ::
        ([Eff.refresh] ++ (mkReqGo cfg out j0 j (g + 1) (k + 1)).2) by
    simp [mkReqGo, h403]]
  rw [htail]
  simp

/-- Witness for C3: a 403 on attempt 0 followed by a success. -/
theorem c3_forbidden_refresh_witness :
    ∃ told tail,
      (mkReq cfgMain (fun a => if a = 0 then Outcome.code403 else Outcome.ok200 .null)
          1 (fun _ => 2)).2 =
        told ++ Eff.request 0 :: Eff.refresh ::
          Eff.sleep 1 (sleepFor cfgMain 1 (fun _ => 2) 1) :: Eff.request 1 :: tail :=
  c3_forbidden_refresh cfgMain (fun a => if a = 0 then Outcome.code403 else Outcome.ok200 .null)
    1 (fun _ => 2) 0 rfl (by norm_num [cfgMain]) (fun a h => absurd h (Nat.not_lt_zero a))

/-- C4: if every attempt fails the controller returns None once the
budget is exhausted, and a 200 with parseable body at attempt k (the
first returning attempt) returns that payload with no request issued
beyond attempt k. -/
theorem c4_exhaustion_and_success (cfg : RetryConfig) (out : Nat → Outcome) (j0 : ℚ)
    (j : Nat → ℚ) :
    ((∀ a, isOk (out a) = false) → (mkReq cfg out j0 j).1 = none) ∧
    (∀ k b, out k = .ok200 b → (∀ a, a < k → isOk (out a) = false) →
      k < cfg.maxRetries →
      (mkReq cfg out j0 j).1 = some b ∧
        ∀ i, Eff.request i ∈ (mkReq cfg out j0 j).2 → i ≤ k) := by
  constructor
  · intro hall
    exact mkReqGo_allfail cfg out j0 j hall cfg.maxRetries 0
  · intro k b hok hbefore hk
    obtain ⟨hval, pre, htr, hreq⟩ :=
      mkReqGo_reach cfg out j0 j k cfg.maxRetries 0
        (by intro i hi; simpa using hbefore i hi) (by omega)
    obtain ⟨g, hg⟩ : ∃ g, cfg.maxRetries - k = g + 1 := ⟨cfg.maxRetries - k - 1, by omega⟩
    have hunf : mkReqGo cfg out j0 j (g + 1) k =
        (some b, [Eff.sleep k (sleepFor cfg j0 j k), Eff.request k]) := by
      simp [mkReqGo, hok]
    constructor
    · rw [mkReq, hval]
      simp only [Nat.zero_add]
      rw [hg, hunf]
    · intro i hi
      rw [mkReq, htr] at hi
      simp only [Nat.zero_add] at hi
      rw [hg, hunf] at hi
      simp only [List.mem_append, List.mem_cons, List.not_mem_nil, or_false] at hi
      rcases hi with h1 | h1 | h1
      · have := hreq i h1; omega
      · cases h1
      · cases h1; omega

/-- Outcome stream for the C1 counterexample: a rate limit on attempt 0
with retry-after 5, then plain transient failures. -/
def c1out : Nat → Outcome := fun a => if a = 0 then .code429 (some 5) else .netFail

/-- C1 counterexample: with max_retries 3, a 429 with retry-after 5 on
attempt 0 and transient failures afterwards, the run sleeps the 5
seconds but issues only 3 requests in total, not the 1 + 3 = 4 the
claim requires when the rate-limited attempt is free of charge: the
continue statement advances the loop index, so the 429 consumes a slot
of the retry budget. -/
theorem c1_rate_limit_counterexample :
    (mkReq cfgMain c1out 1 (fun _ => 2)).2 =
      [Eff.sleep 0 3, Eff.request 0, Eff.sleepRetryAfter 5,
       Eff.sleep 1 6, Eff.request 1, Eff.sleep 2 10, Eff.request 2] ∧
    countRequests (mkReq cfgMain c1out 1 (fun _ => 2)).2 = 3 ∧
    ¬ countRequests (mkReq cfgMain c1out 1 (fun _ => 2)).2 = 1 + 3 := by
  have h : (mkReq cfgMain c1out 1 (fun _ => 2)).2 =
      [Eff.sleep 0 3, Eff.request 0, Eff.sleepRetryAfter 5,
       Eff.sleep 1 6, Eff.request 1, Eff.sleep 2 10, Eff.request 2] := by
    norm_num [mkReq, mkReqGo, sleepFor, cfgMain, c1out]
  refine ⟨h, ?_, ?_⟩ <;> rw [h] <;> norm_num [countRequests, List.countP, List.countP.go]

/-- C1 amended: on a 429 at attempt k the controller reads the
retry-after value (60 when the header is absent) and sleeps it right
after the rate-limited request; the next attempt then additionally
performs its normal backoff sleep, and the rate-limited attempt does
consume a slot of the retry budget, the total number of requests of a
run staying bounded by max_retries. -/
theorem c1_rate_limit_amended (cfg : RetryConfig) (out : Nat → Outcome) (j0 : ℚ)
    (j : Nat → ℚ) (k : Nat) (ra : Option Int) (h429 : out k = .code429 ra)
    (hnext : k + 1 < cfg.maxRetries) (hbefore : ∀ a, a < k → isOk (out a) = false) :
    (∃ told tail, (mkReq cfg out j0 j).2 =
      told ++ Eff.request k :: Eff.sleepRetryAfter (ra.getD 60) ::
        Eff.sleep (k + 1) (sleepFor cfg j0 j (k + 1)) :: Eff.request (k + 1) :: tail) ∧
    countRequests (mkReq cfg out j0 j).2 ≤ cfg.maxRetries := by
  constructor
  · obtain ⟨hval, pre, htr, hreq⟩ :=
      mkReqGo_reach cfg out j0 j k cfg.maxRetries 0
        (by intro i hi; simpa using hbefore i hi) (by omega)
    obtain ⟨g, hg⟩ : ∃ g, cfg.maxRetries - k = g + 1 + 1 := ⟨cfg.maxRetries - k - 2, by omega⟩
    obtain ⟨tail, htail⟩ := mkReqGo_head cfg out j0 j g (k + 1)
    refine ⟨pre ++ [Eff.sleep k (sleepFor cfg j0 j k)], tail, ?_⟩
    rw [mkReq, htr]
    simp only [Nat.zero_add]
    rw [hg]
    rw [show (mkReqGo cfg out j0 j (g + 1 + 1) k).2 =
        Eff.sleep k (sleepFor cfg j0 j k) :: Eff.request k ::
          Eff.sleepRetryAfter (ra.getD 60) :: (mkReqGo cfg out j0 j (g + 1) (k + 1)).2 by
      simp [mkReqGo, h429]]
    rw [htail]
    simp
  · exact countRequests_mkReqGo cfg out j0 j cfg.maxRetries 0

/-- Witness for the amended C1 at the counterexample input. -/
theorem c1_rate_limit_amended_witness :
    (∃ told tail, (mkReq cfgMain c1out 1 (fun _ => 2)).2 =
      told ++ Eff.request 0 :: Eff.sleepRetryAfter 5 ::
        Eff.sleep 1 (sleepFor cfgMain 1 (fun _ => 2) 1) :: Eff.request 1 :: tail) ∧
    countRequests (mkReq cfgMain c1out 1 (fun _ => 2)).2 ≤ cfgMain.maxRetries :=
  c1_rate_limit_amended cfgMain c1out 1 (fun _ => 2) 0 (some 5) rfl
    (by norm_num [cfgMain]) (fun a h => absurd h (Nat.not_lt_zero a))

/-- Witness for C4: all attempts fail on one stream; a first-attempt
success on another. -/
theorem c4_exhaustion_and_success_witness :
    (mkReq cfgMain (fun _ => Outcome.netFail) 1 (fun _ => 2)).1 = none ∧
    (mkReq cfgMain (fun _ => Outcome.ok200 (.num 7)) 1 (fun _ => 2)).1 = some (.num 7) := by
  constructor
  · exact (c4_exhaustion_and_success cfgMain (fun _ => Outcome.netFail) 1 (fun _ => 2)).1
      (fun a => rfl)
  · exact ((c4_exhaustion_and_success cfgMain (fun _ => Outcome.ok200 (.num 7)) 1
      (fun _ => 2)).2 0 (.num 7) rfl (fun a h => absurd h (Nat.not_lt_zero a))
      (by norm_num [cfgMain])).1

/-! Lemmas about the JSON equality test and the dictionary models. -/

mutual

theorem jBeq_refl : ∀ v, jBeq v v = true
  | .null => rfl
  | .bool b => by simp [jBeq]
  | .num n => by simp [jBeq]
  | .str s => by simp [jBeq]
  | .arr xs => by simpa [jBeq] using jBeqList_refl xs
  | .obj fs => by simpa [jBeq] using jBeqFields_refl fs

theorem jBeqList_refl : ∀ xs, jBeqList xs xs = true
  | [] => rfl
  | x :: xs => by simp [jBeqList, jBeq_refl x, jBeqList_refl xs]

theorem jBeqFields_refl : ∀ fs, jBeqFields fs fs = true
  | [] => rfl
  | (k, v) :: fs => by simp [jBeqFields, jBeq_refl v, jBeqFields_refl fs]

end

mutual

theorem jBeq_eq : ∀ v w, jBeq v w = true → v = w
  | .null, w, h => by cases w <;> simp_all [jBeq]
  | .bool a, w, h => by cases w <;> simp_all [jBeq]
  | .num a, w, h => by cases w <;> simp_all [jBeq]
  | .str a, w, h => by cases w <;> simp_all [jBeq]
  | .arr a, w, h => by
    cases w with
    | arr b => exact congrArg JVal.arr (jBeqList_eq a b (by simpa [jBeq] using h))
    | null => simp [jBeq] at h
    | bool b => simp [jBeq] at h
    | num n => simp [jBeq] at h
    | str s => simp [jBeq] at h
    | obj gs => simp [jBeq] at h
  | .obj a, w, h => by
    cases w with
    | obj b => exact congrArg JVal.obj (jBeqFields_eq a b (by simpa [jBeq] using h))
    | null => simp [jBeq] at h
    | bool b => simp [jBeq] at h
    | num n => simp [jBeq] at h
    | str s => simp [jBeq] at h
    | arr xs => simp [jBeq] at h

theorem jBeqList_eq : ∀ xs ys, jBeqList xs ys = true → xs = ys
  | [], [], _ => rfl
  | [], _ :: _, h => by simp [jBeqList] at h
  | _ :: _, [], h => by simp [jBeqList] at h
  | x :: xs, y :: ys, h => by
    simp only [jBeqList, Bool.and_eq_true] at h
    rw [jBeq_eq x y h.1, jBeqList_eq xs ys h.2]

theorem jBeqFields_eq : ∀ fs gs, jBeqFields fs gs = true → fs = gs
  | [], [], _ => rfl
  | [], _ :: _, h => by simp [jBeqFields] at h
  | _ :: _, [], h => by simp [jBeqFields] at h
  | (k1, v1) :: xs, (k2, v2) :: ys, h => by
    simp only [jBeqFields, Bool.and_eq_true] at h
    obtain ⟨⟨hk, hv⟩, ht⟩ := h
    have hk2 : k1 = k2 := by simpa using hk
    rw [hk2, jBeq_eq v1 v2 hv, jBeqFields_eq xs ys ht]

end

/-- jBeq is the equality test on the JSON fragment. -/
theorem jBeq_true_iff (v w : JVal) : jBeq v w = true ↔ v = w :=
  ⟨jBeq_eq v w, fun h => h ▸ jBeq_refl v⟩

theorem hasStatsKey_insert_self (m : List (JVal × Option StatsDict)) (k : JVal)
    (v : Option StatsDict) : hasStatsKey (insertStats m k v) k = true := by
  induction m with
  | nil => simp [insertStats, hasStatsKey, jBeq_refl]
  | cons p t ih =>
    cases p with
    | mk k0 v0 =>
      by_cases h : jBeq k0 k = true
      · simp [insertStats, h, hasStatsKey]
      · simp only [Bool.not_eq_true] at h
        simp only [insertStats, h, if_false, Bool.false_eq_true]
        simp only [hasStatsKey, List.any_cons] at ih ⊢
        simp [ih]

theorem hasStatsKey_insert_mono (m : List (JVal × Option StatsDict)) (k k' : JVal)
    (v : Option StatsDict) (h : hasStatsKey m k' = true) :
    hasStatsKey (insertStats m k v) k' = true := by
  induction m with
  | nil => simp [hasStatsKey] at h
  | cons p t ih =>
    cases p with
    | mk k0 v0 =>
      simp only [hasStatsKey, List.any_cons, Bool.or_eq_true] at h
      by_cases hk : jBeq k0 k = true
      · rcases h with h | h
        · simp [insertStats, hk, hasStatsKey, List.any_cons, h]
        · simp [insertStats, hk, hasStatsKey, List.any_cons]
          right
          simpa [hasStatsKey] using h
      · simp only [Bool.not_eq_true] at hk
        rcases h with h | h
        · simp [insertStats, hk, hasStatsKey, List.any_cons, h]
        · simp only [insertStats, hk, if_false, Bool.false_eq_true]
          simp only [hasStatsKey, List.any_cons, Bool.or_eq_true]
          right
          simpa [hasStatsKey] using ih (by simpa [hasStatsKey] using h)

/-- The key test of pyContains agrees with lookup presence. -/
theorem anyKey_eq_lookup (k : String) (fs : List (String × JVal)) :
    (fs.any fun p => p.1 == k) = (List.lookup k fs).isSome := by
  induction fs with
  | nil => rfl
  | cons p t ih =>
    cases p with
    | mk k0 v0 =>
      by_cases h : k0 = k
      · subst h; simp [List.lookup]
      · have h1 : (k0 == k) = false := by simp [h]
        have h2 : (k == k0) = false := by simp [Ne.symm h]
        simp [List.lookup, h1, h2, ih]

/-! Well-shapedness of schedule entries: the nested fields the source
reads are dictionaries when present, and startTimestamp is numeric when
present. Entries of this shape are exactly those extract_event_ids
turns into a Row without raising. -/

/-- A field that is a dictionary when present. -/
def fieldObjOrAbsent (fs : List (String × JVal)) (k : String) : Bool :=
  match List.lookup k fs with
  | none => true
  | some (.obj _) => true
  | some _ => false

/-- A field that is numeric (or boolean) when present. -/
def fieldNumOrAbsent (fs : List (String × JVal)) (k : String) : Bool :=
  match List.lookup k fs with
  | none => true
  | some (.num _) => true
  | some (.bool _) => true
  | some _ => false

/-- A schedule entry the extraction handles without raising. -/
def entryOk : JVal → Bool
  | .obj fs =>
    fieldObjOrAbsent fs "homeTeam" && fieldObjOrAbsent fs "awayTeam" &&
      fieldObjOrAbsent fs "tournament" && fieldObjOrAbsent fs "status" &&
      fieldObjOrAbsent fs "roundInfo" && fieldObjOrAbsent fs "homeScore" &&
      fieldObjOrAbsent fs "awayScore" && fieldNumOrAbsent fs "startTimestamp"
  | _ => false

/-- Success test of a modeled Python computation. -/
def ran {α : Type} (x : Except PyErr α) : Bool :=
  match x with
  | .ok _ => true
  | .error _ => false

theorem exists_ok_of_ran {α : Type} (x : Except PyErr α) (h : ran x = true) :
    ∃ a, x = .ok a := by
  cases x with
  | ok a => exact ⟨a, rfl⟩
  | error e => simp [ran] at h

theorem objOrAbsent_getD (fs : List (String × JVal)) (k : String)
    (h : fieldObjOrAbsent fs k = true) (d : List (String × JVal)) :
    ∃ gs, (List.lookup k fs).getD (.obj d) = .obj gs := by
  unfold fieldObjOrAbsent at h
  cases hl : List.lookup k fs with
  | none => exact ⟨d, by simp [hl]⟩
  | some v =>
    rw [hl] at h
    cases v with
    | obj gs => exact ⟨gs, rfl⟩
    | null => simp at h
    | bool b => simp at h
    | num n => simp at h
    | str s => simp at h
    | arr xs => simp at h

theorem numOrAbsent_ts (fs : List (String × JVal)) (k : String)
    (h : fieldNumOrAbsent fs k = true) :
    ∃ n, toTimestampInt ((List.lookup k fs).getD (.num 0)) = .ok n := by
  unfold fieldNumOrAbsent at h
  cases hl : List.lookup k fs with
  | none => exact ⟨0, by simp [hl, toTimestampInt]⟩
  | some v =>
    rw [hl] at h
    cases v with
    | num n => exact ⟨n, rfl⟩
    | bool b => exact ⟨if b then 1 else 0, rfl⟩
    | null => simp at h
    | str s => simp at h
    | arr xs => simp at h
    | obj gs => simp at h

/-- A well-shaped entry extracts to a Row without raising. -/
theorem rowOfEvent_ok (e : JVal) (he : entryOk e = true) : ∃ r, rowOfEvent e = .ok r := by
  apply exists_ok_of_ran
  cases e with
  | obj fs =>
    simp only [entryOk, Bool.and_eq_true] at he
    obtain ⟨⟨⟨⟨⟨⟨⟨hht, hat⟩, htt⟩, hst⟩, hrt⟩, hhs⟩, has⟩, hts⟩ := he
    obtain ⟨g1, e1⟩ := objOrAbsent_getD fs "homeTeam" hht []
    obtain ⟨g2, e2⟩ := objOrAbsent_getD fs "awayTeam" hat []
    obtain ⟨g3, e3⟩ := objOrAbsent_getD fs "tournament" htt []
    obtain ⟨g4, e4⟩ := objOrAbsent_getD fs "status" hst []
    obtain ⟨g5, e5⟩ := objOrAbsent_getD fs "roundInfo" hrt []
    obtain ⟨g6, e6⟩ := objOrAbsent_getD fs "homeScore" hhs []
    obtain ⟨g7, e7⟩ := objOrAbsent_getD fs "awayScore" has []
    obtain ⟨n, e8⟩ := numOrAbsent_ts fs "startTimestamp" hts
    simp only [rowOfEvent, jGet, e1, e2, e3, e4, e5, e6, e7, e8, eb_ok]
    rfl
  | null => simp [entryOk] at he
  | bool b => simp [entryOk] at he
  | num n => simp [entryOk] at he
  | str s => simp [entryOk] at he
  | arr xs => simp [entryOk] at he

/-- A list of well-shaped entries extracts to one Row each. -/
theorem mapRows_ok : ∀ es : List JVal, es.all entryOk = true →
    ∃ rows, mapRows es = .ok rows ∧ rows.length = es.length
  | [], _ => ⟨[], rfl, rfl⟩
  | e :: es, h => by
    simp only [List.all_cons, Bool.and_eq_true] at h
    obtain ⟨r, hr⟩ := rowOfEvent_ok e h.1
    obtain ⟨rows, hrows, hlen⟩ := mapRows_ok es h.2
    refine ⟨r :: rows, ?_, by simp [hlen]⟩
    simp [mapRows, hr, hrows]

theorem extract_falsy (sd : JVal) (h : truthy sd = false) :
    extract_event_ids (some sd) = .ok [] := by
  simp [extract_event_ids, h]

theorem extract_noEventsKey (fs : List (String × JVal))
    (h : List.lookup "events" fs = none) :
    extract_event_ids (some (.obj fs)) = .ok [] := by
  by_cases ht : truthy (.obj fs) = true
  · have hany : (fs.any fun p => p.1 == "events") = false := by
      rw [anyKey_eq_lookup, h]; rfl
    simp [extract_event_ids, ht, pyContains, hany]
  · exact extract_falsy _ (by simpa using ht)

theorem extract_events_ok (fs : List (String × JVal)) (es : List JVal)
    (hev : List.lookup "events" fs = some (.arr es)) (hall : es.all entryOk = true) :
    ∃ rows, extract_event_ids (some (.obj fs)) = .ok rows ∧ rows.length = es.length := by
  have ht : truthy (.obj fs) = true := by
    cases fs with
    | nil => cases hev
    | cons p t => simp [truthy]
  have hany : (fs.any fun p => p.1 == "events") = true := by
    rw [anyKey_eq_lookup, hev]; rfl
  obtain ⟨rows, hrw, hlen⟩ := mapRows_ok es hall
  refine ⟨rows, ?_, hlen⟩
  simp [extract_event_ids, ht, pyContains, hany, jGet, hev, pyIter, hrw]

/-- C9 counterexample: an events entry whose homeTeam field is present
but a number makes the source raise AttributeError at the nested
name lookup, so extract_event_ids is not total over all inputs. -/
theorem c9_totality_counterexample :
    extract_event_ids (some (.obj [("events", .arr [.obj [("homeTeam", .num 5)]])])) =
      .error .attributeError := rfl

/-- C9 amended: extract_event_ids returns the empty list for None, for
any falsy payload and for any payload without an events key; an entry
with every field missing produces the row of defaults (names Unknown,
round empty, scores and winner code 0); and extraction is total (one
row per entry) on every entry list whose present nested fields have the
expected shapes. A present field of the wrong shape raises instead, as
the counterexample shows. -/
theorem c9_extract_defaults :
    extract_event_ids none = .ok [] ∧
    (∀ sd, truthy sd = false → extract_event_ids (some sd) = .ok []) ∧
    (∀ fs, List.lookup "events" fs = none → extract_event_ids (some (.obj fs)) = .ok []) ∧
    rowOfEvent (.obj []) = .ok [("id", .null), ("slug", .null), ("startTimestamp", .null),
      ("startTime", .str "1970-01-01 00:00:00"),
      ("homeTeam", .str "Unknown"), ("awayTeam", .str "Unknown"),
      ("tournament", .str "Unknown"), ("round", .str ""), ("status", .str "Unknown"),
      ("homeScore", .num 0), ("awayScore", .num 0),
      ("bestOfSets", .null), ("bestOfLegs", .null), ("winnerCode", .num 0)] ∧
    (∀ fs es, List.lookup "events" fs = some (.arr es) → es.all entryOk = true →
      ∃ rows, extract_event_ids (some (.obj fs)) = .ok rows ∧ rows.length = es.length) :=
  ⟨rfl, extract_falsy, extract_noEventsKey, rfl, extract_events_ok⟩

/-- Witness for the amended C9 at concrete inputs. -/
theorem c9_extract_defaults_witness :
    extract_event_ids (some (.num 0)) = .ok [] ∧
    extract_event_ids (some (.obj [("foo", .null)])) = .ok [] ∧
    (∃ rows, extract_event_ids (some (.obj [("events", .arr [.obj []])])) = .ok rows ∧
      rows.length = [JVal.obj []].length) :=
  ⟨c9_extract_defaults.2.1 (.num 0) rfl,
   c9_extract_defaults.2.2.1 [("foo", .null)] rfl,
   c9_extract_defaults.2.2.2.2 [("events", .arr [.obj []])] [.obj []] rfl rfl⟩

/-- The schedule entry of claim C6 (id 100). -/
def c6entry : JVal := .obj [("id", .num 100)]

/-- The statistics payload of claim C6: one period ALL group with the
Thrown180 item (home 3, away 1), plus one group under another period
that must contribute nothing. -/
def c6stats : JVal := .obj [("statistics", .arr [
  .obj [("period", .str "ALL"), ("groups", .arr [
    .obj [("statisticsItems", .arr [
      .obj [("key", .str "Thrown180"), ("home", .num 3), ("away", .num 1)]])]])],
  .obj [("period", .str "1ST"), ("groups", .arr [
    .obj [("statisticsItems", .arr [
      .obj [("key", .str "Foo"), ("home", .num 9), ("away", .num 9)]])]])]])]

/-- C6 counterexample: the source never merges flat key_home and
key_away fields into the Event Row; the row built from the schedule
entry has only its fixed fields and no Thrown180_home, and the parsed
statistics dictionary keeps the nested entry under the plain key
Thrown180, with no flat key either. -/
theorem c6_flat_fields_counterexample :
    (∃ row, rowOfEvent c6entry = .ok row ∧
      List.lookup "Thrown180_home" row = none ∧
      List.lookup "Thrown180_away" row = none) ∧
    parse_statistics c6stats =
      .ok (some [(.str "Thrown180", ⟨.null, .num 3, .num 1, .null, .null⟩)]) ∧
    dLookup [(.str "Thrown180", ⟨.null, .num 3, .num 1, .null, .null⟩)]
      (.str "Thrown180_home") = none :=
  ⟨⟨_, rfl, rfl, rfl⟩, rfl, rfl⟩

/-- C6 amended: the statistics of the C6 payload are parsed into a
nested dictionary mapping the key Thrown180 to home 3 and away 1
(stored per event id in main rather than merged into the Event Row as
flat fields), and the group under a period other than ALL contributes
nothing. -/
theorem c6_stats_nested_amended :
    parse_statistics c6stats =
      .ok (some [(.str "Thrown180", ⟨.null, .num 3, .num 1, .null, .null⟩)]) ∧
    dLookup [(.str "Thrown180", ⟨.null, .num 3, .num 1, .null, .null⟩)]
      (.str "Thrown180") = some ⟨.null, .num 3, .num 1, .null, .null⟩ ∧
    dLookup [(.str "Thrown180", ⟨.null, .num 3, .num 1, .null, .null⟩)]
      (.str "Foo") = none :=
  ⟨rfl, rfl, rfl⟩

/-! The batch loop of main: per-date isolation and output order. -/

/-- A schedule payload whose events list, when present, holds only
well-shaped entries. -/
def schedOk : JVal → Bool
  | .obj fs =>
    (match List.lookup "events" fs with
     | none => true
     | some (.arr es) => es.all entryOk
     | some _ => false)
  | _ => false

theorem processDate_none : processDate none = .ok ([], [Msg.fetchedNone]) := rfl

/-- A truthy well-shaped payload processes into its extracted rows and
the success message. -/
theorem processDate_good (r : JVal) (hs : schedOk r = true) (ht : truthy r = true) :
    ∃ rows n, processDate (some r) = .ok (rows, [Msg.fetchedOk n]) ∧
      extract_event_ids (some r) = .ok rows := by
  cases r with
  | obj fs =>
    simp only [schedOk] at hs
    cases hev : List.lookup "events" fs with
    | none =>
      have hx : extract_event_ids (some (.obj fs)) = .ok [] := extract_noEventsKey fs hev
      refine ⟨[], 0, ?_, hx⟩
      simp [processDate, fetch_scheduled_events, truthyOpt, ht, jGet, hev, pyLen, hx]
    | some v =>
      rw [hev] at hs
      cases v with
      | arr es =>
        obtain ⟨rows, hx, hlen⟩ := extract_events_ok fs es hev (by simpa using hs)
        refine ⟨rows, es.length, ?_, hx⟩
        simp [processDate, fetch_scheduled_events, truthyOpt, ht, jGet, hev, pyLen, hx]
      | null => simp at hs
      | bool b => simp at hs
      | num n => simp at hs
      | str s => simp at hs
      | obj gs => simp at hs
  | null => simp [schedOk] at hs
  | bool b => simp [schedOk] at hs
  | num n => simp [schedOk] at hs
  | str s => simp [schedOk] at hs
  | arr xs => simp [schedOk] at hs

/-- When every date processes without raising, the batch loop produces
one result per date in iteration order, each the result of its own
date. -/
theorem batchFetch_ok_of (results : Nat → Option JVal) :
    ∀ dates : List Nat, (∀ d ∈ dates, ran (processDate (results d)) = true) →
    ∃ out, batchFetch results dates = .ok out ∧
      out.map (fun en => en.1) = dates ∧
      ∀ en ∈ out, processDate (results en.1) = .ok (en.2.1, en.2.2)
  | [], _ => ⟨[], rfl, rfl, by simp⟩
  | d :: ds, h => by
    obtain ⟨v, hv⟩ := exists_ok_of_ran _ (h d (List.mem_cons_self d ds))
    obtain ⟨out, hout, hmap, hall⟩ :=
      batchFetch_ok_of results ds (fun d2 hd2 => h d2 (List.mem_cons_of_mem _ hd2))
    refine ⟨(d, v.1, v.2) :: out, ?_, ?_, ?_⟩
    · simp [batchFetch, hv, hout]
    · simp [hmap]
    · intro en hen
      rcases List.mem_cons.mp hen with h1 | h1
      · subst h1; simpa using hv
      · exact hall en h1

/-- C5: for a batch in which precisely the date d0 has a failing
transport and every other date returns a truthy well-shaped payload,
the loop yields one result per date in order; the result of d0 carries
the empty row list plus the warning message, and every other result
carries exactly the rows extracted from its own payload with the
success message, unaffected by the failure. -/
theorem c5_partial_failure_isolated (results : Nat → Option JVal) (dates : List Nat)
    (d0 : Nat) (hnd : dates.Nodup) (hd0 : d0 ∈ dates) (hfail : results d0 = none)
    (hok : ∀ d ∈ dates, d ≠ d0 →
      ∃ r, results d = some r ∧ schedOk r = true ∧ truthy r = true) :
    ∃ out, batchFetch results dates = .ok out ∧
      out.map (fun en => en.1) = dates ∧
      (out.map (fun en => en.1)).count d0 = 1 ∧
      ∀ en ∈ out,
        (en.1 = d0 → en.2.1 = [] ∧ en.2.2 = [Msg.fetchedNone]) ∧
        (en.1 ≠ d0 → ∃ n, extract_event_ids (results en.1) = .ok en.2.1 ∧
          en.2.2 = [Msg.fetchedOk n]) := by
  have hran : ∀ d ∈ dates, ran (processDate (results d)) = true := by
    intro d hd
    by_cases hdd : d = d0
    · subst hdd; rw [hfail]; rfl
    · obtain ⟨r, hr, hs, ht⟩ := hok d hd hdd
      obtain ⟨rows, n, hp, _⟩ := processDate_good r hs ht
      rw [hr, hp]; rfl
  obtain ⟨out, hout, hmap, hall⟩ := batchFetch_ok_of results dates hran
  refine ⟨out, hout, hmap, ?_, ?_⟩
  · rw [hmap]; exact List.count_eq_one_of_mem hnd hd0
  · intro en hen
    have hmem : en.1 ∈ dates := by
      rw [← hmap]; exact List.mem_map_of_mem _ hen
    constructor
    · intro he
      have hthis := hall en hen
      rw [he, hfail, processDate_none] at hthis
      simp only [Except.ok.injEq, Prod.mk.injEq] at hthis
      exact ⟨hthis.1.symm, hthis.2.symm⟩
    · intro hne
      obtain ⟨r, hr, hs, ht⟩ := hok en.1 hmem hne
      obtain ⟨rows, n, hp, hx⟩ := processDate_good r hs ht
      have hthis := hall en hen
      rw [hr, hp] at hthis
      simp only [Except.ok.injEq, Prod.mk.injEq] at hthis
      refine ⟨n, ?_, hthis.2.symm⟩
      rw [hr, hx, hthis.1]

/-- Transport results for the C5 witness: date 1 fails, date 2 returns
a one-event schedule. -/
def c5res : Nat → Option JVal := fun d =>
  if d = 1 then none else some (.obj [("events", .arr [.obj []])])

/-- Witness for C5 on the concrete two-date batch. -/
theorem c5_partial_failure_isolated_witness :
    ∃ out, batchFetch c5res [1, 2] = .ok out ∧
      out.map (fun en => en.1) = [1, 2] ∧
      (out.map (fun en => en.1)).count 1 = 1 ∧
      ∀ en ∈ out,
        (en.1 = 1 → en.2.1 = [] ∧ en.2.2 = [Msg.fetchedNone]) ∧
        (en.1 ≠ 1 → ∃ n, extract_event_ids (c5res en.1) = .ok en.2.1 ∧
          en.2.2 = [Msg.fetchedOk n]) := by
  refine c5_partial_failure_isolated c5res [1, 2] 1 (by simp) (by simp) rfl ?_
  intro d hd hne
  rcases List.mem_cons.mp hd with rfl | hd2
  · exact absurd rfl hne
  · rcases List.mem_cons.mp hd2 with rfl | h3
    · exact ⟨_, rfl, rfl, rfl⟩
    · cases h3

theorem batchFetch_map_fst (results : Nat → Option JVal) :
    ∀ (dates : List Nat) (out : List (Nat × List Row × List Msg)),
      batchFetch results dates = .ok out → out.map (fun en => en.1) = dates
  | [], out, h => by
    simp only [batchFetch, Except.ok.injEq] at h
    rw [← h]; rfl
  | d :: ds, out, h => by
    cases hp : processDate (results d) with
    | error e => rw [batchFetch, hp] at h; simp [eb] at h
    | ok rm =>
      cases hb : batchFetch results ds with
      | error e => rw [batchFetch, hp, hb] at h; simp [eb] at h
      | ok rest =>
        rw [batchFetch, hp, hb] at h
        simp only [eb_ok, Except.ok.injEq] at h
        rw [← h]
        simpa using batchFetch_map_fst results ds rest hb

theorem pairwise_le_map_const (c : Nat) {α : Type} (l : List α) :
    List.Pairwise (· ≤ ·) (l.map fun _ => c) := by
  induction l with
  | nil => exact .nil
  | cons x xs ih =>
    refine .cons ?_ ih
    intro y hy
    rcases List.mem_map.mp hy with ⟨z, _, rfl⟩
    exact le_rfl

theorem mem_tagDates (t : List (Nat × List Row × List Msg)) (y : Nat)
    (h : y ∈ tagDates t) : y ∈ t.map (fun en => en.1) := by
  simp only [tagDates, List.mem_flatMap, List.mem_map] at h
  rcases h with ⟨en, hen, _, _, rfl⟩
  exact List.mem_map_of_mem _ hen

theorem sorted_tagDates (out : List (Nat × List Row × List Msg))
    (h : List.Sorted (· ≤ ·) (out.map fun en => en.1)) :
    List.Sorted (· ≤ ·) (tagDates out) := by
  induction out with
  | nil => exact List.Pairwise.nil
  | cons en t ih =>
    simp only [List.map_cons] at h
    have h1 := List.Sorted.of_cons h
    have h2 := (List.pairwise_cons.mp h).1
    simp only [tagDates, List.flatMap_cons]
    refine (List.pairwise_append).2 ⟨pairwise_le_map_const en.1 en.2.1, ih h1, ?_⟩
    intro x hx y hy
    rcases List.mem_map.mp hx with ⟨z, _, rfl⟩
    exact h2 y (mem_tagDates t y hy)

theorem dateRange_sorted (s e : Nat) : List.Sorted (· ≤ ·) (dateRange s e) := by
  unfold dateRange
  refine List.Pairwise.map _ ?_ (List.pairwise_lt_range _)
  intro a b hab
  omega

/-- C7: for every run of the batch loop over an inclusive date range,
the date tags of the aggregated rows appear in non-decreasing date
order: all rows of an earlier date precede all rows of a later date. -/
theorem c7_output_sorted_by_date (results : Nat → Option JVal) (s e : Nat)
    (out : List (Nat × List Row × List Msg))
    (h : batchFetch results (dateRange s e) = .ok out) :
    List.Sorted (· ≤ ·) (tagDates out) := by
  have hmap := batchFetch_map_fst results (dateRange s e) out h
  exact sorted_tagDates out (by rw [hmap]; exact dateRange_sorted s e)

/-- Transport results for the C7 witness: every date returns a
one-event schedule. -/
def c7res : Nat → Option JVal := fun _ => some (.obj [("events", .arr [.obj []])])

/-- The default Row of an entry with every field missing. -/
def defaultRow : Row :=
  [("id", .null), ("slug", .null), ("startTimestamp", .null),
   ("startTime", .str "1970-01-01 00:00:00"),
   ("homeTeam", .str "Unknown"), ("awayTeam", .str "Unknown"),
   ("tournament", .str "Unknown"), ("round", .str ""), ("status", .str "Unknown"),
   ("homeScore", .num 0), ("awayScore", .num 0),
   ("bestOfSets", .null), ("bestOfLegs", .null), ("winnerCode", .num 0)]

/-- Witness for C7 on the concrete range of days 1 to 2. -/
theorem c7_output_sorted_by_date_witness :
    List.Sorted (· ≤ ·) (tagDates
      [(1, [defaultRow], [Msg.fetchedOk 1]), (2, [defaultRow], [Msg.fetchedOk 1])]) :=
  c7_output_sorted_by_date c7res 1 2
    [(1, [defaultRow], [Msg.fetchedOk 1]), (2, [defaultRow], [Msg.fetchedOk 1])] rfl

/-! Statistics fetching inside the batch loop. -/

/-- The statistics payload of one event parses without raising. -/
def parseSafe (sd : JVal) : Bool :=
  match parse_statistics sd with
  | .ok _ => true
  | .error _ => false

/-- The statistics outcome of one event is missing or parses without
raising. -/
def statsSafe : Option JVal → Bool
  | none => true
  | some sd => parseSafe sd

/-- The statistics loop finishes when every payload is missing or
parseable, preserving recorded keys and recording one for every truthy
payload. -/
theorem statsLoop_ok (statsRes : JVal → Option JVal) :
    ∀ (evs : List Row) (acc : List (JVal × Option StatsDict)),
    (∀ ev ∈ evs, statsSafe (statsRes (rowGet ev "id")) = true) →
    ∃ m, statsLoop statsRes acc evs = .ok m ∧
      (∀ k, hasStatsKey acc k = true → hasStatsKey m k = true) ∧
      (∀ ev ∈ evs, truthyOpt (statsRes (rowGet ev "id")) = true →
        hasStatsKey m (rowGet ev "id") = true)
  | [], acc, _ => ⟨acc, rfl, fun _ h => h, by simp⟩
  | ev :: evs, acc, h => by
    have hev := h ev (List.mem_cons_self ev evs)
    have hrest : ∀ ev2 ∈ evs, statsSafe (statsRes (rowGet ev2 "id")) = true :=
      fun ev2 h2 => h ev2 (List.mem_cons_of_mem _ h2)
    cases htr : truthyOpt (statsRes (rowGet ev "id")) with
    | false =>
      obtain ⟨m, hm, hpres, hrec⟩ := statsLoop_ok statsRes evs acc hrest
      refine ⟨m, ?_, hpres, ?_⟩
      · rw [statsLoop, htr]
        simp only [Bool.false_eq_true, if_false]
        exact hm
      · intro ev2 h2 ht2
        rcases List.mem_cons.mp h2 with rfl | h3
        · rw [htr] at ht2; cases ht2
        · exact hrec ev2 h3 ht2
    | true =>
      cases hres : statsRes (rowGet ev "id") with
      | none => rw [hres] at htr; cases htr
      | some sd =>
        rw [hres] at hev
        obtain ⟨ps, hps⟩ : ∃ ps, parse_statistics sd = .ok ps := by
          simp only [statsSafe, parseSafe] at hev
          cases hp : parse_statistics sd with
          | ok ps => exact ⟨ps, rfl⟩
          | error e => simp [hp] at hev
        obtain ⟨m, hm, hpres, hrec⟩ :=
          statsLoop_ok statsRes evs (insertStats acc (rowGet ev "id") ps) hrest
        refine ⟨m, ?_, ?_, ?_⟩
        · rw [statsLoop, htr, hres]
          simp only [if_true]
          rw [hps]
          simpa using hm
        · intro k hk
          exact hpres k (hasStatsKey_insert_mono acc (rowGet ev "id") k ps hk)
        · intro ev2 h2 ht2
          rcases List.mem_cons.mp h2 with rfl | h3
          · exact hpres _ (hasStatsKey_insert_self acc (rowGet ev2 "id") ps)
          · exact hrec ev2 h3 ht2

/-- The schedule payload of the C8 counterexample: two events. -/
def c8sched : JVal :=
  .obj [("events", .arr [.obj [("id", .num 100)], .obj [("id", .num 101)]])]

/-- Statistics transport of the C8 counterexample: every event receives
a payload whose statistics list holds a bare number. -/
def c8badStats : JVal → Option JVal := fun _ =>
  some (.obj [("statistics", .arr [.num 5])])

/-- C8 counterexample: a structurally malformed statistics payload for
the first event makes parse_statistics raise AttributeError, which
nothing in main catches: the whole per-date pass aborts, the second
event is never reached, and no rows survive, contradicting the claim
that a malformed payload is non-fatal. -/
theorem c8_malformed_stats_counterexample :
    processDateStats (some c8sched) c8badStats [] = .error .attributeError := rfl

/-- C8 amended: a missing statistics outcome (fetch returned nothing or
a falsy value) or one whose payload parses without raising (for
instance one lacking a statistics key, which is recorded as None) is
non-fatal: the rows of the date are produced unchanged, the loop visits
every event, and each event with a truthy payload gets an entry in the
stats dictionary. A structurally malformed payload instead raises and
aborts the whole pass, as the counterexample shows. -/
theorem c8_missing_stats_nonfatal (res : Option JVal) (statsRes : JVal → Option JVal)
    (acc : List (JVal × Option StatsDict)) (evs : List Row) (ms : List Msg)
    (h1 : processDate res = .ok (evs, ms))
    (h2 : ∀ ev ∈ evs, statsSafe (statsRes (rowGet ev "id")) = true) :
    ∃ m, processDateStats res statsRes acc = .ok (evs, ms, m) ∧
      ∀ ev ∈ evs, truthyOpt (statsRes (rowGet ev "id")) = true →
        hasStatsKey m (rowGet ev "id") = true := by
  cases hf : fetch_scheduled_events res with
  | error e => rw [processDate, hf] at h1; simp [eb] at h1
  | ok sm =>
    cases he : extract_event_ids sm.1 with
    | error e =>
      rw [processDate, hf] at h1
      simp only [eb_ok] at h1
      rw [he] at h1
      simp [eb] at h1
    | ok evs2 =>
      rw [processDate, hf] at h1
      simp only [eb_ok] at h1
      rw [he] at h1
      simp only [eb_ok, Except.ok.injEq, Prod.mk.injEq] at h1
      obtain ⟨hevs, hms⟩ := h1
      subst hevs
      obtain ⟨m, hm, _, hrec⟩ := statsLoop_ok statsRes evs2 acc h2
      refine ⟨m, ?_, hrec⟩
      rw [processDateStats, hf]
      simp only [eb_ok]
      rw [he]
      simp only [eb_ok]
      rw [hm]
      simp [hms]

/-- The schedule payload of the C8 witness: one event with every field
missing. -/
def c8wsched : JVal := .obj [("events", .arr [.obj []])]

/-- Witness for the amended C8: the statistics fetch returns nothing
for every event; the row survives and the pass finishes. -/
theorem c8_missing_stats_nonfatal_witness :
    ∃ m, processDateStats (some c8wsched) (fun _ => none) [] =
        .ok ([defaultRow], [Msg.fetchedOk 1], m) ∧
      ∀ ev ∈ [defaultRow], truthyOpt ((fun _ => none) (rowGet ev "id")) = true →
        hasStatsKey m (rowGet ev "id") = true :=
  c8_missing_stats_nonfatal (some c8wsched) (fun _ => none) [] [defaultRow]
    [Msg.fetchedOk 1] rfl (fun _ _ => rfl)

/-! Key collisions in parse_statistics. -/

/-- Looking a key up after a dictionary assignment: the assigned value
when the keys agree, the previous binding otherwise. -/
theorem dLookup_insertRep (m : StatsDict) (k : JVal) (v : StatEntry) (kq : JVal) :
    dLookup (insertRep m k v) kq = if jBeq k kq then some v else dLookup m kq := by
  induction m with
  | nil => simp [insertRep, dLookup]
  | cons p t ih =>
    cases p with
    | mk k0 v0 =>
      by_cases h0 : jBeq k0 k = true
      · have hk0 : k0 = k := jBeq_eq _ _ h0
        subst hk0
        simp only [insertRep, jBeq_refl, if_true, dLookup]
        split <;> rfl
      · simp only [Bool.not_eq_true] at h0
        simp only [insertRep, h0, Bool.false_eq_true, if_false, dLookup]
        by_cases h1 : jBeq k0 kq = true
        · have hk0 : k0 = kq := jBeq_eq _ _ h1
          subst hk0
          have h2 : jBeq k k0 = false := by
            cases h3 : jBeq k k0 with
            | false => rfl
            | true => rw [jBeq_eq _ _ h3, jBeq_refl] at h0; cases h0
          simp [h1, h2]
        · simp only [Bool.not_eq_true] at h1
          simp [h1, ih]

/-- The value extracted from one statisticsItems dictionary. -/
def itemEntryOf (fs : List (String × JVal)) : StatEntry :=
  ⟨(List.lookup "name" fs).getD .null, (List.lookup "home" fs).getD .null,
   (List.lookup "away" fs).getD .null, (List.lookup "homeValue" fs).getD .null,
   (List.lookup "awayValue" fs).getD .null⟩

/-- The key extracted from one statisticsItems dictionary. -/
def itemKeyOf (fs : List (String × JVal)) : JVal :=
  (List.lookup "key" fs).getD .null

/-- Python iteration as a pure view. -/
def pyIterO (v : JVal) : Option (List JVal) :=
  match pyIter v with
  | .ok xs => some xs
  | .error _ => none

/-- The items of one group as the parse extracts them, None where the
extraction raises. -/
def gItems (g : JVal) : Option (List JVal) :=
  match g with
  | .obj fs => pyIterO ((List.lookup "statisticsItems" fs).getD (.arr []))
  | _ => none

/-- The groups of one period entry as the parse extracts them. -/
def pGroups (pd : JVal) : Option (List JVal) :=
  match pd with
  | .obj fs => pyIterO ((List.lookup "groups" fs).getD (.arr []))
  | _ => none

/-- The last item of the list whose key equals kq, searching later
items first. -/
def lastKeyed (kq : JVal) : List JVal → Option StatEntry
  | [] => none
  | it :: rest =>
    match lastKeyed kq rest with
    | some e => some e
    | none =>
      match it with
      | .obj fs => if jBeq (itemKeyOf fs) kq then some (itemEntryOf fs) else none
      | _ => none

/-- The last item across a list of groups whose key equals kq. -/
def lastKeyedG (kq : JVal) : List JVal → Option StatEntry
  | [] => none
  | g :: rest =>
    match lastKeyedG kq rest with
    | some e => some e
    | none =>
      match gItems g with
      | some items => lastKeyed kq items
      | none => none

/-- The last item across the ALL period entries whose key equals kq. -/
def lastKeyedP (kq : JVal) : List JVal → Option StatEntry
  | [] => none
  | pd :: rest =>
    match lastKeyedP kq rest with
    | some e => some e
    | none =>
      match pd with
      | .obj fs =>
        if jBeq ((List.lookup "period" fs).getD .null) (.str "ALL") then
          match pGroups pd with
          | some groups => lastKeyedG kq groups
          | none => none
        else none
      | _ => none

/-- The last period-ALL item of a statistics payload whose key equals
kq. -/
def lastKeyedStats (kq : JVal) (p : JVal) : Option StatEntry :=
  match p with
  | .obj fs =>
    match pyIterO ((List.lookup "statistics" fs).getD (.arr [])) with
    | some periods => lastKeyedP kq periods
    | none => none
  | _ => none

theorem parseItems_lookup : ∀ (items : List JVal) (acc d : StatsDict) (kq : JVal),
    parseItems items acc = .ok d →
    dLookup d kq = (match lastKeyed kq items with
      | some e => some e
      | none => dLookup acc kq)
  | [], acc, d, kq, h => by
    simp only [parseItems, Except.ok.injEq] at h
    subst h
    rfl
  | it :: items, acc, d, kq, h => by
    cases it with
    | obj fs =>
      rw [parseItems] at h
      simp only [jGet, eb_ok] at h
      rw [dinsert] at h
      by_cases hh : hashable (itemKeyOf fs) = true
      · rw [itemKeyOf] at hh
        rw [hh] at h
        simp only [if_true, eb_ok] at h
        have ih := parseItems_lookup items
          (insertRep acc ((List.lookup "key" fs).getD .null)
            ⟨(List.lookup "name" fs).getD .null, (List.lookup "home" fs).getD .null,
             (List.lookup "away" fs).getD .null, (List.lookup "homeValue" fs).getD .null,
             (List.lookup "awayValue" fs).getD .null⟩) d kq h
        rw [ih, lastKeyed]
        cases lastKeyed kq items with
        | some e => rfl
        | none =>
          simp only [dLookup_insertRep]
          rw [show ((List.lookup "key" fs).getD JVal.null) = itemKeyOf fs from rfl]
          by_cases hk : jBeq (itemKeyOf fs) kq = true
          · simp [hk, itemEntryOf]
          · simp only [Bool.not_eq_true] at hk
            simp [hk]
      · simp only [Bool.not_eq_true] at hh
        rw [itemKeyOf] at hh
        rw [hh] at h
        simp only [Bool.false_eq_true, if_false, eb_error] at h
        cases h
    | null => rw [parseItems] at h; simp [jGet] at h
    | bool b => rw [parseItems] at h; simp [jGet] at h
    | num n => rw [parseItems] at h; simp [jGet] at h
    | str s => rw [parseItems] at h; simp [jGet] at h
    | arr xs => rw [parseItems] at h; simp [jGet] at h

theorem parseGroups_lookup : ∀ (groups : List JVal) (acc d : StatsDict) (kq : JVal),
    parseGroups groups acc = .ok d →
    dLookup d kq = (match lastKeyedG kq groups with
      | some e => some e
      | none => dLookup acc kq)
  | [], acc, d, kq, h => by
    simp only [parseGroups, Except.ok.injEq] at h
    subst h
    rfl
  | g :: groups, acc, d, kq, h => by
    cases g with
    | obj fs =>
      rw [parseGroups] at h
      simp only [jGet, eb_ok] at h
      cases hit : pyIter ((List.lookup "statisticsItems" fs).getD (.arr [])) with
      | error e => rw [hit] at h; simp [eb] at h
      | ok items =>
        rw [hit] at h
        simp only [eb_ok] at h
        cases hpi : parseItems items acc with
        | error e => rw [hpi] at h; simp [eb] at h
        | ok acc2 =>
          rw [hpi] at h
          simp only [eb_ok] at h
          have ih := parseGroups_lookup groups acc2 d kq h
          have hi := parseItems_lookup items acc acc2 kq hpi
          rw [ih, lastKeyedG]
          cases lastKeyedG kq groups with
          | some e => rfl
          | none =>
            simp only
            rw [show gItems (.obj fs) =
                pyIterO ((List.lookup "statisticsItems" fs).getD (.arr [])) from rfl,
              pyIterO, hit]
            simpa using hi
    | null => rw [parseGroups] at h; simp [jGet] at h
    | bool b => rw [parseGroups] at h; simp [jGet] at h
    | num n => rw [parseGroups] at h; simp [jGet] at h
    | str s => rw [parseGroups] at h; simp [jGet] at h
    | arr xs => rw [parseGroups] at h; simp [jGet] at h

theorem parsePeriods_lookup : ∀ (periods : List JVal) (acc d : StatsDict) (kq : JVal),
    parsePeriods periods acc = .ok d →
    dLookup d kq = (match lastKeyedP kq periods with
      | some e => some e
      | none => dLookup acc kq)
  | [], acc, d, kq, h => by
    simp only [parsePeriods, Except.ok.injEq] at h
    subst h
    rfl
  | pd :: periods, acc, d, kq, h => by
    cases pd with
    | obj fs =>
      rw [parsePeriods] at h
      simp only [jGet, eb_ok] at h
      by_cases hall : jBeq ((List.lookup "period" fs).getD .null) (.str "ALL") = true
      · rw [hall] at h
        simp only [if_true] at h
        cases hgs : pyIter ((List.lookup "groups" fs).getD (.arr [])) with
        | error e => rw [hgs] at h; simp [eb] at h
        | ok groups =>
          rw [hgs] at h
          simp only [eb_ok] at h
          cases hpg : parseGroups groups acc with
          | error e => rw [hpg] at h; simp [eb] at h
          | ok acc2 =>
            rw [hpg] at h
            simp only [eb_ok] at h
            have ih := parsePeriods_lookup periods acc2 d kq h
            have hg := parseGroups_lookup groups acc acc2 kq hpg
            rw [ih, lastKeyedP]
            cases lastKeyedP kq periods with
            | some e => rfl
            | none =>
              simp only [hall, if_true]
              rw [show pGroups (.obj fs) =
                  pyIterO ((List.lookup "groups" fs).getD (.arr [])) from rfl,
                pyIterO, hgs]
              simpa using hg
      · simp only [Bool.not_eq_true] at hall
        rw [hall] at h
        simp only [Bool.false_eq_true, if_false] at h
        have ih := parsePeriods_lookup periods acc d kq h
        rw [ih, lastKeyedP]
        cases lastKeyedP kq periods with
        | some e => rfl
        | none => simp [hall]
    | null => rw [parsePeriods] at h; simp [jGet] at h
    | bool b => rw [parsePeriods] at h; simp [jGet] at h
    | num n => rw [parsePeriods] at h; simp [jGet] at h
    | str s => rw [parsePeriods] at h; simp [jGet] at h
    | arr xs => rw [parsePeriods] at h; simp [jGet] at h

/-- A statisticsItems entry with the given key and values. -/
def sItem (k : String) (nm ho aw hv av : JVal) : JVal :=
  .obj [("key", .str k), ("name", nm), ("home", ho), ("away", aw),
        ("homeValue", hv), ("awayValue", av)]

/-- A group holding the given statisticsItems. -/
def sGroup (items : List JVal) : JVal := .obj [("statisticsItems", .arr items)]

/-- A period entry with the given period label and groups. -/
def sPeriod (p : String) (groups : List JVal) : JVal :=
  .obj [("period", .str p), ("groups", .arr groups)]

/-- A statistics payload with the given period entries. -/
def sPayload (periods : List JVal) : JVal := .obj [("statistics", .arr periods)]

/-- C10: for every payload the parse accepts, the binding of each key
in the resulting dictionary is the value of the last item with that key
in traversal order over the ALL period entries (lastKeyedStats), so a
later item silently overwrites an earlier one sharing its key; in
particular, when two items share one key, whether inside the same
group, in two groups of the same period entry, or in two separate ALL
period entries, the parsed dictionary keeps exactly the values of the
item encountered last. -/
theorem c10_last_write_wins :
    (∀ (p : JVal) (d : StatsDict) (kq : JVal), parse_statistics p = .ok (some d) →
      dLookup d kq = lastKeyedStats kq p) ∧
    (∀ (k : String) (na1 ho1 aw1 hv1 av1 na2 ho2 aw2 hv2 av2 : JVal),
      parse_statistics (sPayload [sPeriod "ALL"
          [sGroup [sItem k na1 ho1 aw1 hv1 av1, sItem k na2 ho2 aw2 hv2 av2]]]) =
        .ok (some [(.str k, ⟨na2, ho2, aw2, hv2, av2⟩)]) ∧
      parse_statistics (sPayload [sPeriod "ALL"
          [sGroup [sItem k na1 ho1 aw1 hv1 av1], sGroup [sItem k na2 ho2 aw2 hv2 av2]]]) =
        .ok (some [(.str k, ⟨na2, ho2, aw2, hv2, av2⟩)]) ∧
      parse_statistics (sPayload
          [sPeriod "ALL" [sGroup [sItem k na1 ho1 aw1 hv1 av1]],
           sPeriod "ALL" [sGroup [sItem k na2 ho2 aw2 hv2 av2]]]) =
        .ok (some [(.str k, ⟨na2, ho2, aw2, hv2, av2⟩)])) := by
  constructor
  · intro p d kq hp
    cases p with
    | obj fs =>
      rw [parse_statistics] at hp
      by_cases ht : truthy (.obj fs) = true
      · rw [ht] at hp
        simp only [if_true, pyContains, eb_ok] at hp
        by_cases hany : (fs.any fun q => q.1 == "statistics") = true
        · rw [hany] at hp
          simp only [if_true, jGet, eb_ok] at hp
          cases hit : pyIter ((List.lookup "statistics" fs).getD (.arr [])) with
          | error e => rw [hit] at hp; simp [eb] at hp
          | ok periods =>
            rw [hit] at hp
            simp only [eb_ok] at hp
            cases hpp : parsePeriods periods [] with
            | error e => rw [hpp] at hp; simp [eb] at hp
            | ok d0 =>
              rw [hpp] at hp
              simp only [eb_ok, Except.ok.injEq, Option.some.injEq] at hp
              subst hp
              have hl := parsePeriods_lookup periods [] d0 kq hpp
              rw [lastKeyedStats]
              simp only [pyIterO, hit]
              rw [hl]
              cases lastKeyedP kq periods with
              | some e => rfl
              | none => rfl
        · simp only [Bool.not_eq_true] at hany
          rw [hany] at hp
          simp [eb] at hp
      · simp only [Bool.not_eq_true] at ht
        rw [ht] at hp
        simp at hp
    | null => rw [parse_statistics] at hp; simp [truthy] at hp
    | bool b =>
      rw [parse_statistics] at hp
      cases b with
      | false => simp [truthy] at hp
      | true => simp [truthy, pyContains, eb] at hp
    | num n =>
      rw [parse_statistics] at hp
      by_cases ht : truthy (.num n) = true
      · rw [ht] at hp; simp [pyContains, eb] at hp
      · simp only [Bool.not_eq_true] at ht; rw [ht] at hp; simp at hp
    | str s =>
      rw [parse_statistics] at hp
      by_cases ht : truthy (.str s) = true
      · rw [ht] at hp
        simp only [if_true, pyContains, eb_ok] at hp
        by_cases hsub : hasSubChars "statistics".data s.data = true
        · rw [hsub] at hp; simp [jGet, eb] at hp
        · simp only [Bool.not_eq_true] at hsub; rw [hsub] at hp; simp at hp
      · simp only [Bool.not_eq_true] at ht; rw [ht] at hp; simp at hp
    | arr xs =>
      rw [parse_statistics] at hp
      by_cases ht : truthy (.arr xs) = true
      · rw [ht] at hp
        simp only [if_true, pyContains, eb_ok] at hp
        by_cases hm : (xs.any (jBeq (.str "statistics"))) = true
        · rw [hm] at hp; simp [jGet, eb] at hp
        · simp only [Bool.not_eq_true] at hm; rw [hm] at hp; simp at hp
      · simp only [Bool.not_eq_true] at ht; rw [ht] at hp; simp at hp
  · intro k na1 ho1 aw1 hv1 av1 na2 ho2 aw2 hv2 av2
    refine ⟨?_, ?_, ?_⟩ <;>
      simp [parse_statistics, sPayload, sPeriod, sGroup, sItem, truthy, pyContains,
        pyIter, jGet, parsePeriods, parseGroups, parseItems, dinsert, insertRep,
        hashable, jBeq, List.lookup]

/-- Witness for C10: the general last-write-wins characterization
applied to a concrete payload with two same-key items in one group. -/
theorem c10_last_write_wins_witness :
    dLookup [(.str "A", ⟨.null, .num 2, .num 2, .null, .null⟩)] (.str "A") =
      lastKeyedStats (.str "A") (sPayload [sPeriod "ALL"
        [sGroup [sItem "A" .null (.num 1) (.num 1) .null .null,
                 sItem "A" .null (.num 2) (.num 2) .null .null]]]) :=
  c10_last_write_wins.1
    (sPayload [sPeriod "ALL"
      [sGroup [sItem "A" .null (.num 1) (.num 1) .null .null,
               sItem "A" .null (.num 2) (.num 2) .null .null]]])
    [(.str "A", ⟨.null, .num 2, .num 2, .null, .null⟩)] (.str "A") rfl

end Darts
